import Mathlib

/-!
# Verification of the git-cache proxy core

Shallow embedding of the core of a caching Git smart-HTTP proxy
(`src/git.rs`, `src/repo.rs`, `src/server.rs`, `src/error.rs`), together
with theorems settling the frozen claims about it.

Byte buffers (`bytes::Bytes`, `&[u8]`) are modelled as `List Nat`
(each element a byte value < 256).  Machine subtraction on `u16` is
modelled with explicit wraparound mod 2^16 (the release-profile
semantics; in a debug build the same spot panics, which the model also
surfaces, see `pkt_line`).  Operations that panic in Rust
(`Bytes.split_to` out of bounds, wrapped-length overruns) are modelled
by an explicit `panicked` outcome, distinct from the `anyhow`-error
outcome that Rust code reports as a recoverable parse error.
-/

/-- UTF-8 bytes of a Lean string literal; used to transcribe the byte
literals of the source. Only applied to ASCII literals in this file. -/
def bytes (s : String) : List Nat := s.data.map Char.toNat

/-- Outcome of a fallible parsing step in `git.rs`: `ok`, an `anyhow`
error (what the code reports as a parse error), or a Rust panic. -/
inductive PResult (α : Type) where
  | ok (a : α)
  | error
  | panicked
deriving DecidableEq, Repr

/-- Model of `Bytes::split_to(at)`: `some (head, tail)` splitting off the
first `n` bytes, `none` when `n` exceeds the length (Rust panics). -/
def splitTo : Nat → List Nat → Option (List Nat × List Nat)
  | 0, l => some ([], l)
  | _ + 1, [] => none
  | n + 1, x :: xs =>
    match splitTo n xs with
    | none => none
    | some (a, b) => some (x :: a, b)

def isHexDigitByte (b : Nat) : Bool :=
  (48 ≤ b && b ≤ 57) || (97 ≤ b && b ≤ 102) || (65 ≤ b && b ≤ 70)

def hexDigitVal (b : Nat) : Nat :=
  if b ≤ 57 then b - 48 else if b ≤ 70 then b - 55 else b - 87

/-- Model of `u16::from_str_radix(str::from_utf8(&pkt_len)?, 16)` on the
4 header bytes: `from_str_radix` accepts an optional leading `+` and hex
digits of either case.  All failure modes (invalid UTF-8, a non-digit, a
sign with no digits) are `anyhow` errors in the source, so they are all
`none` here.  Four hex digits never overflow `u16`. -/
def parseHexU16 (bs : List Nat) : Option Nat :=
  let digits := match bs with
    | 43 :: rest => if rest.isEmpty then none else some rest
    | _ => some bs
  match digits with
  | none => none
  | some ds =>
    if !ds.isEmpty && ds.all isHexDigitByte then
      some (ds.foldl (fun a b => 16 * a + hexDigitVal b) 0)
    else none

/-- Model of the inner `pkt_line` function of `parse_smart_refs`
(`src/git.rs`).  Splits off the 4-byte hex length header; `0000` is
returned as-is (flush); otherwise the header value minus 4 (wrapping
`u16` subtraction, see the FIXME in the source) bytes of payload are
split off.  Returns `(payload, rest)`. -/
def pkt_line (input : List Nat) : PResult (List Nat × List Nat) :=
  match splitTo 4 input with
  | none => .panicked
  | some (pktLen, rest) =>
    if pktLen = bytes "0000" then .ok (pktLen, rest)
    else
      match parseHexU16 pktLen with
      | none => .error
      | some n =>
        match splitTo ((n + 65532) % 65536) rest with
        | none => .panicked
        | some (payload, rest') => .ok (payload, rest')

/-- Model of Rust `slice::partition_point(pred)`: the `binary_search_by`
loop (`left`/`right`, `mid = left + (right-left)/2`), which is what the
source actually runs on its (not necessarily partitioned) byte slices.
`fuel` bounds the iterations; `length + 1` always suffices because the
interval shrinks every step. -/
def partitionPointAux (l : List Nat) (pred : Nat → Bool) :
    Nat → Nat → Nat → Nat
  | 0, left, _ => left
  | fuel + 1, left, right =>
    if left < right then
      let mid := left + (right - left) / 2
      if pred (l.getD mid 0) then partitionPointAux l pred fuel (mid + 1) right
      else partitionPointAux l pred fuel left mid
    else left

def partitionPoint (l : List Nat) (pred : Nat → Bool) : Nat :=
  partitionPointAux l pred (l.length + 1) 0 l.length

/-- Model of `slice::split(|&c| c == b' ')`: split on every space byte;
adjacent separators yield empty tokens, the empty slice yields one empty
token. -/
def splitOnSpaceAux (cur : List Nat) : List Nat → List (List Nat)
  | [] => [cur.reverse]
  | c :: rest =>
    if c = 32 then cur.reverse :: splitOnSpaceAux [] rest
    else splitOnSpaceAux (c :: cur) rest

def splitOnSpace (l : List Nat) : List (List Nat) := splitOnSpaceAux [] l

/-- UTF-8 validity of a byte sequence, as checked by
`str::from_utf8` (the standard table: C2–DF + 1 continuation, E0/ED with
restricted second bytes, F0/F4 with restricted second bytes). -/
def utf8Cont (c : Nat) : Bool := 128 ≤ c && c ≤ 191

def utf8Valid : List Nat → Bool
  | [] => true
  | b :: rest =>
    if b < 128 then utf8Valid rest
    else if b < 194 then false
    else if b ≤ 223 then
      match rest with
      | c1 :: rest' => utf8Cont c1 && utf8Valid rest'
      | [] => false
    else if b ≤ 239 then
      match rest with
      | c1 :: c2 :: rest' =>
        (if b = 224 then 160 ≤ c1 && c1 ≤ 191
         else if b = 237 then 128 ≤ c1 && c1 ≤ 159
         else utf8Cont c1) && utf8Cont c2 && utf8Valid rest'
      | _ => false
    else if b ≤ 244 then
      match rest with
      | c1 :: c2 :: c3 :: rest' =>
        (if b = 240 then 144 ≤ c1 && c1 ≤ 191
         else if b = 244 then 128 ≤ c1 && c1 ≤ 143
         else utf8Cont c1) && utf8Cont c2 && utf8Cont c3 && utf8Valid rest'
      | _ => false
    else false

/-- `str::strip_prefix` at the byte level (the needle is ASCII). -/
def dropPfx? (pfx l : List Nat) : Option (List Nat) :=
  if pfx.isPrefixOf l then some (l.drop pfx.length) else none

/-- The capability scan of `parse_smart_refs`: for each space-separated
token, `str::from_utf8` (`cap?` propagates invalid UTF-8 as an error),
then `strip_prefix("symref=HEAD:")`; the first match is returned. -/
def scanCaps : List (List Nat) → PResult (Option (List Nat))
  | [] => .ok none
  | tok :: rest =>
    if utf8Valid tok then
      match dropPfx? (bytes "symref=HEAD:") tok with
      | some target => .ok (some target)
      | none => scanCaps rest
    else .error

/-- The tail of `parse_smart_refs` (`src/git.rs`) operating on the bytes
selected as the first ref-list item (after the optional `version` line
was skipped): the `0000` check, `split_to(40)` (object id),
`split_to(1)` (space), the two `partition_point` calls (binary search
over the byte values 0 and LF), `split_off(lf_pos)`, and the capability
scan. -/
def scanFirstRefItem (input : List Nat) : PResult (Option (List Nat)) :=
  if input = bytes "0000" then .ok none
  else
    match splitTo 40 input with
    | none => .panicked
    | some (_objId, r1) =>
      match splitTo 1 r1 with
      | none => .panicked
      | some (_sp, r2) =>
        let nulPos := partitionPoint r2 (fun c => c = 0)
        match splitTo nulPos r2 with
        | none => .panicked
        | some (_name, r3) =>
          let lfPos := partitionPoint r3 (fun c => c = 10)
          match splitTo lfPos r3 with
          | none => .panicked
          | some (_kept, capList) => scanCaps (splitOnSpace capList)

/-- Model of `parse_smart_refs` (`src/git.rs`): service header pkt-line,
flush, then the first ref-list pkt-line; if that payload starts with
`version` the raw *remainder of the buffer* (`next`) is substituted for
it, exactly as in the source (`input = next`). -/
def parse_smart_refs (input : List Nat) : PResult (Option (List Nat)) :=
  match pkt_line input with
  | .panicked => .panicked
  | .error => .error
  | .ok (header, input1) =>
    if header ≠ bytes "# service=git-upload-pack\n" then .error
    else
      match pkt_line input1 with
      | .panicked => .panicked
      | .error => .error
      | .ok (flush, input2) =>
        if flush ≠ bytes "0000" then .error
        else
          match pkt_line input2 with
          | .panicked => .panicked
          | .error => .error
          | .ok (i, next) =>
            scanFirstRefItem (if (bytes "version").isPrefixOf i then next else i)

/-!
## Upstream probe (`Git::authenticate_with_head`, `src/git.rs`)

The HTTP exchange itself is I/O; the embedding models the pure
classification of the upstream response that the function performs.
The `contentType` field is carried in the model because the spec talks
about it; the source (see the FIXME at `src/git.rs:87`) never reads it.
-/

/-- The upstream's response to `GET /info/refs?service=git-upload-pack`,
as observed by `authenticate_with_head`. -/
structure HttpResponse where
  status : Nat
  wwwAuthenticate : Option (List Nat)
  contentType : Option (List Nat)
  body : List Nat
deriving DecidableEq, Repr

/-- The crate's `Error` type (`src/error.rs`). `other` is the type-erased
`anyhow` variant; its message is irrelevant to control flow. -/
inductive Error where
  | notFound
  | missingAuth (authenticate : List Nat)
  | other (msg : String)
deriving DecidableEq, Repr

/-- Outcome of `authenticate_with_head`: the parsed symref on success,
a crate `Error`, or a panic propagated from the parser. -/
inductive AuthOutcome where
  | ok (symref : Option (List Nat))
  | err (e : Error)
  | panicked
deriving DecidableEq, Repr

/-- Model of the response classification in `Git::authenticate_with_head`
(`src/git.rs`): 200 → parse the body (the content-type is *not*
inspected), 404 → `NotFound`, 401 → `MissingAuth` with the upstream's
`WWW-Authenticate` value (its absence is an internal error), anything
else → internal error. -/
def authenticate_with_head (resp : HttpResponse) : AuthOutcome :=
  if resp.status = 200 then
    match parse_smart_refs resp.body with
    | .ok s => .ok s
    | .error => .err (.other "failed to parse response from upstream /info/refs")
    | .panicked => .panicked
  else if resp.status = 404 then .err .notFound
  else if resp.status = 401 then
    match resp.wwwAuthenticate with
    | some v => .err (.missingAuth v)
    | none => .err (.other "missing WWW-Authenticate header for 401 Unauthorized response from upstream")
  else .err (.other "upstream responded to /info/refs with status")

/-!
## The `git fetch` helper invocation (`Git::fetch`, `src/git.rs`)
-/

/-- The environment and argument vector handed to the spawned `git`
child (program name `git` is implicit).  Argument and env-value bytes
are kept as byte lists. -/
structure GitCommand where
  env : List (List Nat × List Nat)
  args : List (List Nat)
deriving DecidableEq, Repr

/-- `http::HeaderValue::to_str` succeeds iff every byte is visible ASCII
or tab (`b >= 32 && b < 127 || b == 9`).  A `HeaderValue` itself may
additionally hold the opaque bytes 128–255, for which `to_str` fails. -/
def headerValueToStrOk (a : List Nat) : Bool :=
  a.all (fun b => (32 ≤ b && b < 127) || b = 9)

/-- Model of the command construction in `Git::fetch` (`src/git.rs`):
when `auth` is present *and* converts with `HeaderValue::to_str`, the
child gets `AUTHORIZATION=authorization: <auth>` in its environment and
`--config-env http.extraHeader=AUTHORIZATION` prepended to its argv;
when `to_str` fails the auth is silently dropped (FIXME in the source).
Then the fixed arguments follow. -/
def fetchCommand (upstream loc : List Nat) (auth : Option (List Nat)) :
    GitCommand :=
  let withAuth : GitCommand :=
    match auth with
    | some a =>
      if headerValueToStrOk a then
        { env := [(bytes "AUTHORIZATION", bytes "authorization: " ++ a)],
          args := [bytes "--config-env", bytes "http.extraHeader=AUTHORIZATION"] }
      else { env := [], args := [] }
    | none => { env := [], args := [] }
  { env := withAuth.env,
    args := withAuth.args ++
      [bytes "-C", loc, bytes "fetch", bytes "--quiet", bytes "--prune-tags",
       upstream, bytes "+refs/*:refs/*"] }

/-!
## Repository index (`Index::open`, `src/repo.rs`)

Paths are modelled as lists of segments, each segment a byte list.
`Path::components()` on Unix is modelled including its normalization:
repeated separators and interior `.` segments disappear; a leading `/`
is a root component, a leading `.` a current-dir component; `..` is
always a parent-dir component.
-/

/-- A Rust `std::path::Component` (Unix: no prefix components). -/
inductive PathComponent where
  | rootDir
  | curDir
  | parentDir
  | normal (seg : List Nat)
deriving DecidableEq, Repr

def PathComponent.isNormal : PathComponent → Bool
  | .normal _ => true
  | _ => false

/-- Split a byte string on `/` (byte 47) into raw segments, like
`str::split('/')`: adjacent separators give empty segments. -/
def splitSlashAux (cur : List Nat) : List Nat → List (List Nat)
  | [] => [cur.reverse]
  | c :: rest =>
    if c = 47 then cur.reverse :: splitSlashAux [] rest
    else splitSlashAux (c :: cur) rest

def splitSlash (l : List Nat) : List (List Nat) := splitSlashAux [] l

/-- A non-leading raw segment as a component: empty and `.` segments are
normalized away, `..` is a parent-dir, anything else is normal. -/
def restComponent : List Nat → Option PathComponent
  | [] => none
  | s => if s = bytes "." then none
         else if s = bytes ".." then some .parentDir
         else some (.normal s)

/-- Model of `Path::new(bytes).components()` on Unix. -/
def pathComponents (l : List Nat) : List PathComponent :=
  match splitSlash l with
  | [] => []
  | first :: rest =>
    let tailComps := rest.filterMap restComponent
    if l.isEmpty then []
    else if first.isEmpty then .rootDir :: tailComps
    else if first = bytes "." then .curDir :: tailComps
    else if first = bytes ".." then .parentDir :: tailComps
    else .normal first :: tailComps

/-- Keep only the payloads of `Normal` components; `none` as soon as any
non-normal component appears (the loop in `Index::open` rejects those
with `Error::NotFound`). -/
def normalSegs : List PathComponent → Option (List (List Nat))
  | [] => some []
  | .normal s :: rest => (normalSegs rest).map (s :: ·)
  | _ => none

/-- `PathBuf::set_extension("git")` on a file-name segment: replace the
extension after the last `.` by `git`, or append `.git` when there is
no extension (no `.`, or only a leading `.`). Operates on the reversed
byte list to find the last dot. -/
def stemRev : List Nat → Option (List Nat)
  | [] => none
  | b :: rest => if b = 46 then (if rest.isEmpty then none else some rest)
                 else stemRev rest

def setExtGit (seg : List Nat) : List Nat :=
  match stemRev seg.reverse with
  | some stem => stem.reverse ++ bytes ".git"
  | none => seg ++ bytes ".git"

/-- `set_extension` applies to the final path segment (no-op on an empty
path, like `PathBuf::set_extension` without a file name). -/
def setExtGitLast (segs : List (List Nat)) : List (List Nat) :=
  match segs with
  | [] => []
  | s :: rest =>
    match setExtGitLast rest with
    | [] => [setExtGit s]
    | r => s :: r

/-- An upstream `http::Uri` as used by `Index::open`: the host (if any)
and the full path (starting with `/` for the URIs the router builds). -/
structure Upstream where
  host : Option (List Nat)
  path : List Nat
deriving DecidableEq, Repr

/-- The `LocalPath` computation of `Index::open` (`src/repo.rs`): path
segments under `cache_dir`, from the components of the host and of
`path[1..]`, all of which must be normal, with `.git` appended to the
final segment by `set_extension`. `none` is the `Error::NotFound`
rejection (missing host or non-normal component). -/
def localPathOf (cacheDir : List (List Nat)) (u : Upstream) :
    Option (List (List Nat)) :=
  match u.host with
  | none => none
  | some h =>
    match normalSegs (pathComponents h), normalSegs (pathComponents (u.path.drop 1)) with
    | some hs, some ps => some (setExtGitLast (cacheDir ++ hs ++ ps))
    | _, _ => none

/-- State of the `Index` (`src/repo.rs`): the interning map from
`LocalPath` to the shared repo handle, plus the observable filesystem
effects of `open`.  A handle (`Arc<Mutex<Repo>>`) is identified by the
`Nat` allocated when its entry was created: two opens return the same
`Arc` — hence the same `Mutex` — iff they return the same identifier. -/
structure IndexState where
  entries : List (List (List Nat) × Nat)
  nextId : Nat
  dirsCreated : List (List (List Nat))
  initCalls : List (List (List Nat))
deriving DecidableEq, Repr

def findEntry (l : List (List Nat)) : List (List (List Nat) × Nat) → Option Nat
  | [] => none
  | (k, v) :: rest => if k = l then some v else findEntry l rest

/-- Model of `Index::open` (`src/repo.rs`): compute the `LocalPath`
(rejecting with `NotFound` before touching anything), then under the
index mutex either return the existing handle or create the directory,
run `git init`, and insert a fresh handle.  `fs::create_dir_all` and
`Git::init` are modelled as succeeding; their invocations are recorded
in `dirsCreated` / `initCalls`. -/
def Index.openRepo (cacheDir : List (List Nat)) (s : IndexState)
    (u : Upstream) : IndexState × Except Error Nat :=
  match localPathOf cacheDir u with
  | none => (s, .error .notFound)
  | some loc =>
    match findEntry loc s.entries with
    | some id => (s, .ok id)
    | none =>
      ({ entries := s.entries ++ [(loc, s.nextId)],
         nextId := s.nextId + 1,
         dirsCreated := s.dirsCreated ++ [loc],
         initCalls := s.initCalls ++ [loc] }, .ok s.nextId)

/-- Run a sequence of opens, keeping only the final index state. -/
def runOpens (cacheDir : List (List Nat)) (s : IndexState) :
    List Upstream → IndexState
  | [] => s
  | u :: us => runOpens cacheDir (Index.openRepo cacheDir s u).1 us

/-!
## `Repo::fetch` (`src/repo.rs`) and the protocol handlers (`src/server.rs`)

The filesystem is modelled as a map from segment paths to file
contents; `tokio::fs::write` is modelled as succeeding (truncating
overwrite).  The order of the side effects is recorded in an event
trace.
-/

/-- A filesystem: path (list of segments) to file bytes. -/
def FileSys := List (List Nat) → Option (List Nat)

def FileSys.write (fs : FileSys) (p : List (List Nat)) (contents : List Nat) :
    FileSys :=
  fun q => if q = p then some contents else fs q

/-- Observable side effects of `Repo::fetch`, in order. -/
inductive RepoEvent where
  | writeHead (path : List (List Nat)) (contents : List Nat)
  | gitFetch
deriving DecidableEq, Repr

/-- Model of `Repo::fetch` (`src/repo.rs`): when a `remote_head` is
given, `<local>/HEAD` is overwritten with the bytes of
`format!("ref: {remote_head}")` first; then `Git::fetch` runs (its
subprocess result is passed through unchanged). -/
def Repo.fetch (fs : FileSys) (loc : List (List Nat))
    (remoteHead : Option (List Nat)) (gitFetchResult : Except Error Unit) :
    FileSys × List RepoEvent × Except Error Unit :=
  match remoteHead with
  | some h =>
    let headPath := loc ++ [bytes "HEAD"]
    let contents := bytes "ref: " ++ h
    (fs.write headPath contents, [.writeHead headPath contents, .gitFetch],
     gitFetchResult)
  | none => (fs, [.gitFetch], gitFetchResult)

/-- An HTTP response of the proxy, with the headers the handlers and the
`IntoResponse` impl actually set. -/
structure ProxyResponse where
  status : Nat
  contentType : Option (List Nat)
  cacheControl : Option (List Nat)
  wwwAuthenticate : Option (List Nat)
  body : List Nat
deriving DecidableEq, Repr

/-- Model of `impl IntoResponse for Error` (`src/error.rs`): `Other` →
500 with a short fixed string, `NotFound` → 404 empty, `MissingAuth` →
401 empty with the carried `WWW-Authenticate` value. -/
def Error.intoResponse : Error → ProxyResponse
  | .notFound => ⟨404, none, none, none, []⟩
  | .missingAuth v => ⟨401, none, none, some v, []⟩
  | .other _ =>
    ⟨500, none, none, none, bytes "sorry, something went terrible wrong here"⟩

/-- The advertisement prelude the handler prepends
(`b"001e# service=git-upload-pack\n0000"`, `src/server.rs`). -/
def servicePrelude : List Nat := bytes "001e# service=git-upload-pack\n0000"

/-- Model of `handle_ref_discovery` (`src/server.rs`) under the per-repo
lock: authenticate against the upstream (classifying `resp`), then
`Repo::fetch` with the returned symref, then `advertise_refs`; on
success an OK response with the advertisement content-type, no-cache,
and the prelude followed by the helper's stdout stream.  `none` models
a panic propagated from the parser; errors are returned for the router
to convert. -/
def handle_ref_discovery (fs : FileSys) (loc : List (List Nat))
    (resp : HttpResponse) (gitFetchResult : Except Error Unit)
    (advertiseResult : Except Error (List Nat)) :
    Option (FileSys × Except Error ProxyResponse) :=
  match authenticate_with_head resp with
  | .panicked => none
  | .err e => some (fs, .error e)
  | .ok remoteHead =>
    let (fs', _events, fr) := Repo.fetch fs loc remoteHead gitFetchResult
    match fr with
    | .error e => some (fs', .error e)
    | .ok () =>
      match advertiseResult with
      | .error e => some (fs', .error e)
      | .ok stdout =>
        some (fs', .ok ⟨200, some (bytes "application/x-git-upload-pack-advertisement"),
                        some (bytes "no-cache"), none, servicePrelude ++ stdout⟩)

/-- Model of `handle_upload_pack` (`src/server.rs`): authenticate
(discarding the symref), collect the request body, run `upload_pack` on
it; on success an OK response with the result content-type, no-cache,
and the helper's stdout stream as the body. -/
def handle_upload_pack (resp : HttpResponse)
    (bodyResult : Except Error (List Nat))
    (uploadPack : List Nat → Except Error (List Nat)) :
    Option (Except Error ProxyResponse) :=
  match authenticate_with_head resp with
  | .panicked => none
  | .err e => some (.error e)
  | .ok _ =>
    match bodyResult with
    | .error e => some (.error e)
    | .ok input =>
      match uploadPack input with
      | .error e => some (.error e)
      | .ok stdout =>
        some (.ok ⟨200, some (bytes "application/x-git-upload-pack-result"),
                   some (bytes "no-cache"), none, stdout⟩)

/-- The axum boundary: a handler's `Result<Response>` becomes the wire
response via `IntoResponse` (`Err` goes through `Error::intoResponse`). -/
def respond : Except Error ProxyResponse → ProxyResponse
  | .ok r => r
  | .error e => e.intoResponse

/-- The wire response of the ref-discovery endpoint (absent a panic). -/
def refDiscoveryResponse (fs : FileSys) (loc : List (List Nat))
    (resp : HttpResponse) (gitFetchResult : Except Error Unit)
    (advertiseResult : Except Error (List Nat)) : Option ProxyResponse :=
  (handle_ref_discovery fs loc resp gitFetchResult advertiseResult).map
    (fun p => respond p.2)

/-- The wire response of the upload-pack endpoint (absent a panic). -/
def uploadPackResponse (resp : HttpResponse)
    (bodyResult : Except Error (List Nat))
    (uploadPack : List Nat → Except Error (List Nat)) : Option ProxyResponse :=
  (handle_upload_pack resp bodyResult uploadPack).map respond

/-!
## Concrete advertisement fixtures

Helpers to build well-formed smart v1 pkt-line streams for the concrete
evaluations below (these construct *inputs*; they are not part of the
embedded program).
-/

/-- Four ASCII hex digits (lowercase) of `n < 65536`. -/
def lenHex4 (n : Nat) : List Nat :=
  [n / 4096 % 16, n / 256 % 16, n / 16 % 16, n % 16].map
    (fun d => if d < 10 then 48 + d else 87 + d)

/-- A pkt-line framing `p`: 4-byte hex length (including the header)
followed by the payload. -/
def mkPkt (p : List Nat) : List Nat := lenHex4 (p.length + 4) ++ p

def flushPkt : List Nat := bytes "0000"

def servicePkt : List Nat := mkPkt (bytes "# service=git-upload-pack\n")

/-- A 40-hex-digit object id (all `a`). -/
def oid40 : List Nat := List.replicate 40 97

/-- Well-formed advertisement whose first ref-list pkt-line is
`<oid> HEAD NUL symref=HEAD:refs/heads/main LF` — the symref capability
is the first (and only) capability token. -/
def advSymrefFirst : List Nat :=
  servicePkt ++ flushPkt ++
    mkPkt (oid40 ++ bytes " HEAD" ++ [0] ++ bytes "symref=HEAD:refs/heads/main\n") ++
    flushPkt

/-- Well-formed advertisement with the symref capability in the middle
of the capability list (the shape of the repository's own fixture). -/
def advSymrefMid : List Nat :=
  servicePkt ++ flushPkt ++
    mkPkt (oid40 ++ bytes " HEAD" ++ [0] ++
      bytes "multi_ack thin-pack symref=HEAD:refs/heads/master agent=git/2.39.2\n") ++
    flushPkt

/-- A protocol-v2 style advertisement: service header, flush, a
`version 2` pkt-line, flush. -/
def advVersion2 : List Nat :=
  servicePkt ++ flushPkt ++ mkPkt (bytes "version 2\n") ++ flushPkt

/-!
## Claims about the parser (C3, C4, C5) and the probe (C6)
-/

/-- C3 (code bug): on a well-formed advertisement whose capability list
is exactly `symref=HEAD:refs/heads/main`, the parser returns the target
*with the trailing LF still attached* (`refs/heads/main\n`), because the
first `partition_point` call binary-searches the unpartitioned ref line
for the NUL (finding it here only by accident of the data) and the
second never locates the LF, so `split_off(0)` leaves the line
terminator inside the last capability token.  The claim says the exact
target `refs/heads/main` is returned. -/
theorem parse_smart_refs_keeps_trailing_newline :
    parse_smart_refs advSymrefFirst = .ok (some (bytes "refs/heads/main\n")) ∧
    bytes "refs/heads/main\n" ≠ bytes "refs/heads/main" := by
  constructor
  · decide
  · decide

/-- C4 (counterexample): a `version 2` advertisement is *not* refused:
the parser returns `Ok(None)` for it (the claim says it must fail). -/
theorem parse_smart_refs_version2_not_refused :
    parse_smart_refs advVersion2 = .ok none := by decide

/-- C4 (amended): a first ref-list pkt-line that starts with `version`
(here `version 2`) is skipped, and parsing continues on the *raw
remaining bytes* of the buffer; no error is raised for v2. -/
theorem parse_smart_refs_skips_version_line (b : List Nat) :
    parse_smart_refs (servicePkt ++ flushPkt ++ mkPkt (bytes "version 2\n") ++ b) =
      scanFirstRefItem b := rfl

/-- C5 (code bug): a pkt-line whose 4-byte hex length is 1 or 3 (less
than 4 and not `0000`) is not rejected with a parse error: the `u16`
subtraction `pkt_len - 4` underflows (panic in a debug build; in
release it wraps to 65533/65535 and the subsequent `split_to` panics
out of bounds). -/
theorem pkt_line_short_length_panics :
    pkt_line (bytes "0001") = .panicked ∧
    pkt_line (bytes "0003abc") = .panicked ∧
    pkt_line (bytes "0003abc") ≠ .error := by
  refine ⟨by decide, by decide, by decide⟩

/-- C6 (code bug): `authenticate_with_head` never inspects the response
`Content-Type` (the FIXME at `src/git.rs:87`): its outcome is invariant
under changing the content-type, and a 200 response labelled
`text/html` is still parsed as an advertisement, returning the symref
instead of failing. -/
theorem authenticate_ignores_content_type :
    (∀ (r : HttpResponse) (ct ct' : Option (List Nat)),
      authenticate_with_head { r with contentType := ct } =
        authenticate_with_head { r with contentType := ct' }) ∧
    authenticate_with_head ⟨200, none, some (bytes "text/html"), advSymrefMid⟩ =
      .ok (some (bytes "refs/heads/master")) := by
  refine ⟨fun r ct ct' => rfl, by decide⟩

/-!
## Claims about `Git::fetch` (C7)
-/

/-- C7 (counterexample): the byte 128 is a legal `HeaderValue` byte
(`HeaderValue::from_bytes` accepts 32–126 and 128–255), but
`to_str` fails on it, so `Git::fetch` silently drops the auth (the
FIXME at `src/git.rs:115`): no `AUTHORIZATION` environment variable and
no `--config-env` argument are passed, contradicting the claim's "for
every provided auth value". -/
theorem fetch_auth_nonascii_dropped :
    fetchCommand (bytes "https://example.com/a/b/c")
        (bytes "/var/cache/git/example.com/a/b/c.git") (some [128]) =
      { env := [],
        args := [bytes "-C", bytes "/var/cache/git/example.com/a/b/c.git",
                 bytes "fetch", bytes "--quiet", bytes "--prune-tags",
                 bytes "https://example.com/a/b/c", bytes "+refs/*:refs/*"] } := by
  decide

/-- C7 (amended): for every auth value whose bytes convert with
`HeaderValue::to_str` (visible ASCII or tab), the child's environment
carries `AUTHORIZATION=authorization: <value>`, its argv starts with
`--config-env http.extraHeader=AUTHORIZATION` followed by the fixed
fetch arguments, and the argv is independent of the secret (any two
convertible auth values produce identical argv). -/
theorem fetch_auth_env_injection (u l a : List Nat)
    (h : headerValueToStrOk a = true) :
    (fetchCommand u l (some a)).env =
      [(bytes "AUTHORIZATION", bytes "authorization: " ++ a)] ∧
    (fetchCommand u l (some a)).args =
      bytes "--config-env" :: bytes "http.extraHeader=AUTHORIZATION" ::
      bytes "-C" :: l :: bytes "fetch" :: bytes "--quiet" ::
      bytes "--prune-tags" :: u :: [bytes "+refs/*:refs/*"] ∧
    (∀ a', headerValueToStrOk a' = true →
      (fetchCommand u l (some a')).args = (fetchCommand u l (some a)).args) := by
  refine ⟨by simp [fetchCommand, h], by simp [fetchCommand, h], ?_⟩
  intro a' h'
  simp [fetchCommand, h, h']

/-- Witness for `fetch_auth_env_injection` at a concrete ASCII auth
value. -/
theorem fetch_auth_env_injection_witness :
    (fetchCommand (bytes "https://example.com/a/b/c")
        (bytes "/var/cache/git/example.com/a/b/c.git")
        (some (bytes "Basic Zm9vOmJhcg=="))).env =
      [(bytes "AUTHORIZATION",
        bytes "authorization: " ++ bytes "Basic Zm9vOmJhcg==")] :=
  (fetch_auth_env_injection _ _ _ (by decide)).1

/-!
## Claims about `Repo::fetch` and the handlers (C8, C9, C10)
-/

/-- C8: with a `remote_head`, `Repo::fetch` overwrites `<local>/HEAD`
with exactly the bytes `ref: <remote_head>` (no trailing newline), does
so *before* the `git fetch` event, leaves every other file unchanged;
with `None` it runs `git fetch` without touching the filesystem. -/
theorem repo_fetch_writes_head (fs : FileSys) (loc : List (List Nat))
    (h : List Nat) (g : Except Error Unit) :
    Repo.fetch fs loc (some h) g =
      (fs.write (loc ++ [bytes "HEAD"]) (bytes "ref: " ++ h),
       [.writeHead (loc ++ [bytes "HEAD"]) (bytes "ref: " ++ h), .gitFetch], g) ∧
    (Repo.fetch fs loc (some h) g).1 (loc ++ [bytes "HEAD"]) =
      some (bytes "ref: " ++ h) ∧
    (∀ p, p ≠ loc ++ [bytes "HEAD"] → (Repo.fetch fs loc (some h) g).1 p = fs p) ∧
    Repo.fetch fs loc none g = (fs, [.gitFetch], g) := by
  refine ⟨rfl, by simp [Repo.fetch, FileSys.write], ?_, rfl⟩
  intro p hp
  simp [Repo.fetch, FileSys.write, hp]

/-- Witness for `repo_fetch_writes_head`: concrete repo, concrete head,
a different path is untouched. -/
theorem repo_fetch_writes_head_witness :
    (Repo.fetch (fun _ => none) [bytes "c.git"] (some (bytes "refs/heads/mock"))
        (.ok ())).1 [bytes "c.git", bytes "config"] = none :=
  (repo_fetch_writes_head (fun _ => none) [bytes "c.git"]
    (bytes "refs/heads/mock") (.ok ())).2.2.1 _ (by decide)

/-- C9: when the upstream probe authenticates (yielding symref `rh`),
the fetch succeeds and `advertise_refs` yields stream `s`, the
ref-discovery endpoint responds 200 with content-type
`application/x-git-upload-pack-advertisement`, `Cache-Control:
no-cache`, and body `001e# service=git-upload-pack\n0000` immediately
followed by `s`. -/
theorem ref_discovery_success_response (fs : FileSys) (loc : List (List Nat))
    (resp : HttpResponse) (rh : Option (List Nat)) (s : List Nat)
    (hAuth : authenticate_with_head resp = .ok rh) :
    refDiscoveryResponse fs loc resp (.ok ()) (.ok s) =
      some ⟨200, some (bytes "application/x-git-upload-pack-advertisement"),
            some (bytes "no-cache"), none,
            bytes "001e# service=git-upload-pack\n0000" ++ s⟩ := by
  unfold refDiscoveryResponse handle_ref_discovery
  rw [hAuth]
  cases rh <;> simp [Repo.fetch, respond, servicePrelude]

/-- Witness for `ref_discovery_success_response`: a 200 upstream
response carrying a standard advertisement, mock advertise output. -/
theorem ref_discovery_success_response_witness :
    refDiscoveryResponse (fun _ => none) [bytes "c.git"]
        ⟨200, none, some (bytes "application/x-git-upload-pack-advertisement"),
         advSymrefMid⟩
        (.ok ()) (.ok (bytes "mock git-upload-pack output")) =
      some ⟨200, some (bytes "application/x-git-upload-pack-advertisement"),
            some (bytes "no-cache"), none,
            bytes "001e# service=git-upload-pack\n0000" ++
              bytes "mock git-upload-pack output"⟩ :=
  ref_discovery_success_response _ _ _ (some (bytes "refs/heads/master")) _
    (by decide)

/-- C10: on either endpoint, a 401 upstream response (whose
`WWW-Authenticate` value is `v`) produces the wire response 401 with
empty body and `WWW-Authenticate: v` passed through, and a 404 upstream
response produces 404 with empty body — independent of the fetch,
advertise, body and upload-pack outcomes. -/
theorem error_status_passthrough (resp : HttpResponse) (v : List Nat)
    (fs : FileSys) (loc : List (List Nat)) (gf : Except Error Unit)
    (ar : Except Error (List Nat)) (br : Except Error (List Nat))
    (upl : List Nat → Except Error (List Nat)) :
    (resp.status = 401 → resp.wwwAuthenticate = some v →
      refDiscoveryResponse fs loc resp gf ar = some ⟨401, none, none, some v, []⟩ ∧
      uploadPackResponse resp br upl = some ⟨401, none, none, some v, []⟩) ∧
    (resp.status = 404 →
      refDiscoveryResponse fs loc resp gf ar = some ⟨404, none, none, none, []⟩ ∧
      uploadPackResponse resp br upl = some ⟨404, none, none, none, []⟩) := by
  constructor
  · intro h401 hv
    have : authenticate_with_head resp = .err (.missingAuth v) := by
      simp [authenticate_with_head, h401, hv]
    constructor
    · simp [refDiscoveryResponse, handle_ref_discovery, this, respond,
        Error.intoResponse]
    · simp [uploadPackResponse, handle_upload_pack, this, respond,
        Error.intoResponse]
  · intro h404
    have : authenticate_with_head resp = .err .notFound := by
      simp [authenticate_with_head, h404]
    constructor
    · simp [refDiscoveryResponse, handle_ref_discovery, this, respond,
        Error.intoResponse]
    · simp [uploadPackResponse, handle_upload_pack, this, respond,
        Error.intoResponse]

/-- Witness for `error_status_passthrough`: a concrete 401 upstream
response with `WWW-Authenticate: mock authenticate` yields 401 with the
header passed through on both endpoints. -/
theorem error_status_passthrough_witness :
    refDiscoveryResponse (fun _ => none) []
        ⟨401, some (bytes "mock authenticate"), none, []⟩ (.ok ()) (.ok []) =
      some ⟨401, none, none, some (bytes "mock authenticate"), []⟩ ∧
    uploadPackResponse ⟨401, some (bytes "mock authenticate"), none, []⟩
        (.ok []) (fun _ => .ok []) =
      some ⟨401, none, none, some (bytes "mock authenticate"), []⟩ :=
  (error_status_passthrough ⟨401, some (bytes "mock authenticate"), none, []⟩
    (bytes "mock authenticate") (fun _ => none) [] (.ok ()) (.ok []) (.ok [])
    (fun _ => .ok [])).1 rfl rfl

/-!
## Claims about `Index::open` (C1, C2)
-/

theorem normalSegs_eq_none (l : List PathComponent)
    (h : ¬ l.all PathComponent.isNormal) : normalSegs l = none := by
  induction l with
  | nil => simp at h
  | cons c rest ih =>
    cases c with
    | normal s =>
      simp only [List.all_cons, PathComponent.isNormal, Bool.true_and] at h
      simp [normalSegs, ih h]
    | rootDir => rfl
    | curDir => rfl
    | parentDir => rfl

def emptyIndex : IndexState := ⟨[], 0, [], []⟩

/-- The upstream `https://example.com/a//b`: its path contains an empty
segment (a non-normal component of the URL path). -/
def upDoubleSlash : Upstream := ⟨some (bytes "example.com"), bytes "/a//b"⟩

/-- C1 (counterexample): the path of `https://example.com/a//b` contains
an empty segment, yet `Index::open` succeeds — `Path::components()`
normalizes interior empty (and interior `.`) segments away before the
loop can reject them — and it creates filesystem state (the directory
and `git init` for `<cache>/example.com/a/b.git`). -/
theorem open_accepts_interior_empty_segment :
    (splitSlash ((bytes "/a//b").drop 1)).contains [] = true ∧
    (Index.openRepo [] emptyIndex upDoubleSlash).2 = .ok 0 ∧
    (Index.openRepo [] emptyIndex upDoubleSlash).1.initCalls =
      [[bytes "example.com", bytes "a", bytes "b.git"]] ∧
    (Index.openRepo [] emptyIndex upDoubleSlash).1.dirsCreated =
      [[bytes "example.com", bytes "a", bytes "b.git"]] := by
  refine ⟨by decide, by rfl, by decide, by decide⟩

/-- C1 (amended): `Index::open` fails `NotFound` without creating any
filesystem state exactly for the non-normal components that *survive*
Rust's `Path::components()` normalization: any `..` segment, a leading
`.` segment, or a leading `/` (root) in the host or in the path —
whereas interior empty and interior `.` segments are normalized away
and accepted. -/
theorem localPathOf_some_host (cd : List (List Nat)) (u : Upstream)
    (h : List Nat) (hh : u.host = some h) :
    localPathOf cd u =
      match normalSegs (pathComponents h),
            normalSegs (pathComponents (u.path.drop 1)) with
      | some hs, some ps => some (setExtGitLast (cd ++ hs ++ ps))
      | _, _ => none := by
  unfold localPathOf
  rw [hh]

theorem open_rejects_surviving_nonnormal (cd : List (List Nat))
    (s : IndexState) (u : Upstream) (h : List Nat)
    (hh : u.host = some h)
    (hc : ¬ ((pathComponents h ++ pathComponents (u.path.drop 1)).all
              PathComponent.isNormal)) :
    Index.openRepo cd s u = (s, .error .notFound) := by
  have hlp : localPathOf cd u = none := by
    rw [localPathOf_some_host cd u h hh]
    rw [List.all_append, Bool.and_eq_true] at hc
    push_neg at hc
    by_cases hA : (pathComponents h).all PathComponent.isNormal = true
    · rw [normalSegs_eq_none _ (hc hA)]
      cases normalSegs (pathComponents h) <;> rfl
    · rw [normalSegs_eq_none _ hA]
  simp [Index.openRepo, hlp]

/-- Witness for `open_rejects_surviving_nonnormal`: the upstream
`https://example.com/a/../b` (a `..` segment) is rejected with
`NotFound` and the index state is untouched. -/
theorem open_rejects_surviving_nonnormal_witness :
    Index.openRepo [] emptyIndex ⟨some (bytes "example.com"), bytes "/a/../b"⟩ =
      (emptyIndex, .error .notFound) :=
  open_rejects_surviving_nonnormal [] emptyIndex
    ⟨some (bytes "example.com"), bytes "/a/../b"⟩ (bytes "example.com")
    rfl (by decide)

/-- Well-formedness of the index: every interned id is below `nextId`,
local-path keys are unique (at most one entry per `LocalPath`), and
handle ids are unique (distinct entries are distinct `Arc`s, hence
distinct `Mutex`es).  Holds of the empty index and is preserved by
`open`. -/
def IndexInv (s : IndexState) : Prop :=
  (∀ p ∈ s.entries, p.2 < s.nextId) ∧
  (s.entries.map Prod.fst).Nodup ∧
  (s.entries.map Prod.snd).Nodup

instance (s : IndexState) : Decidable (IndexInv s) := by
  unfold IndexInv
  infer_instance

theorem findEntry_mem {l : List (List Nat)} {id : Nat} :
    ∀ {es : List (List (List Nat) × Nat)},
      findEntry l es = some id → (l, id) ∈ es := by
  intro es
  induction es with
  | nil => intro h; simp [findEntry] at h
  | cons e rest ih =>
    intro h
    obtain ⟨k, v⟩ := e
    simp only [findEntry] at h
    by_cases hk : k = l
    · rw [if_pos hk] at h
      injection h with h'
      subst hk
      subst h'
      exact List.mem_cons_self _ _
    · rw [if_neg hk] at h
      exact List.mem_cons_of_mem _ (ih h)

theorem findEntry_none {l : List (List Nat)} :
    ∀ {es : List (List (List Nat) × Nat)},
      findEntry l es = none → ∀ id, (l, id) ∉ es := by
  intro es
  induction es with
  | nil => intro _ id h; simp at h
  | cons e rest ih =>
    intro h id hmem
    obtain ⟨k, v⟩ := e
    simp only [findEntry] at h
    by_cases hk : k = l
    · rw [if_pos hk] at h
      exact Option.noConfusion h
    · rw [if_neg hk] at h
      rcases List.mem_cons.mp hmem with heq | hmem'
      · injection heq with h1 h2
        exact hk h1.symm
      · exact ih h id hmem'

theorem findEntry_of_mem {l : List (List Nat)} {id : Nat} :
    ∀ {es : List (List (List Nat) × Nat)}, (es.map Prod.fst).Nodup →
      (l, id) ∈ es → findEntry l es = some id := by
  intro es
  induction es with
  | nil => intro _ h; simp at h
  | cons e rest ih =>
    intro hnd hmem
    obtain ⟨k, v⟩ := e
    simp only [List.map_cons, List.nodup_cons] at hnd
    rcases List.mem_cons.mp hmem with heq | hmem'
    · injection heq with h1 h2
      subst h1
      subst h2
      simp [findEntry]
    · have hk : k ≠ l := by
        intro hkl
        exact hnd.1 (hkl ▸ List.mem_map.mpr ⟨(l, id), hmem', rfl⟩)
      simp [findEntry, if_neg hk]
      exact ih hnd.2 hmem'

theorem snd_injective {l l' : List (List Nat)} {id : Nat} :
    ∀ {es : List (List (List Nat) × Nat)}, (es.map Prod.snd).Nodup →
      (l, id) ∈ es → (l', id) ∈ es → l = l' := by
  intro es
  induction es with
  | nil => intro _ h; simp at h
  | cons e rest ih =>
    intro hnd h1 h2
    obtain ⟨k, v⟩ := e
    simp only [List.map_cons, List.nodup_cons] at hnd
    rcases List.mem_cons.mp h1 with he1 | hm1 <;>
      rcases List.mem_cons.mp h2 with he2 | hm2
    · injection he1 with a1 a2
      injection he2 with b1 b2
      exact a1.trans b1.symm
    · injection he1 with a1 a2
      exact absurd (List.mem_map.mpr ⟨(l', id), hm2, rfl⟩) (a2.symm ▸ hnd.1)
    · injection he2 with b1 b2
      exact absurd (List.mem_map.mpr ⟨(l, id), hm1, rfl⟩) (b2.symm ▸ hnd.1)
    · exact ih hnd.2 hm1 hm2

theorem openRepo_reject {cd : List (List Nat)} {s : IndexState} {u : Upstream}
    (hl : localPathOf cd u = none) :
    Index.openRepo cd s u = (s, .error .notFound) := by
  simp only [Index.openRepo, hl]

theorem openRepo_occupied {cd : List (List Nat)} {s : IndexState}
    {u : Upstream} {loc : List (List Nat)} {id : Nat}
    (hl : localPathOf cd u = some loc)
    (hf : findEntry loc s.entries = some id) :
    Index.openRepo cd s u = (s, .ok id) := by
  simp only [Index.openRepo, hl, hf]

theorem openRepo_vacant {cd : List (List Nat)} {s : IndexState}
    {u : Upstream} {loc : List (List Nat)}
    (hl : localPathOf cd u = some loc)
    (hf : findEntry loc s.entries = none) :
    Index.openRepo cd s u =
      ({ entries := s.entries ++ [(loc, s.nextId)], nextId := s.nextId + 1,
         dirsCreated := s.dirsCreated ++ [loc],
         initCalls := s.initCalls ++ [loc] }, .ok s.nextId) := by
  simp only [Index.openRepo, hl, hf]

theorem openRepo_ok {cd : List (List Nat)} {s s' : IndexState} {u : Upstream}
    {r : Nat} (h : Index.openRepo cd s u = (s', .ok r)) :
    ∃ loc, localPathOf cd u = some loc ∧ (loc, r) ∈ s'.entries := by
  rcases hl : localPathOf cd u with _ | loc
  · rw [openRepo_reject hl] at h
    injection h with h1 h2
    exact absurd h2 (by simp)
  · rcases hf : findEntry loc s.entries with _ | id
    · rw [openRepo_vacant hl hf] at h
      injection h with h1 h2
      injection h2 with h3
      refine ⟨loc, rfl, ?_⟩
      rw [← h1]
      simp [h3.symm]
    · rw [openRepo_occupied hl hf] at h
      injection h with h1 h2
      injection h2 with h3
      refine ⟨loc, rfl, ?_⟩
      rw [← h1]
      exact h3 ▸ findEntry_mem hf

theorem openRepo_mem_mono {cd : List (List Nat)} {s : IndexState}
    {u : Upstream} (e : List (List Nat) × Nat) (he : e ∈ s.entries) :
    e ∈ (Index.openRepo cd s u).1.entries := by
  rcases hl : localPathOf cd u with _ | loc
  · rw [openRepo_reject hl]
    exact he
  · rcases hf : findEntry loc s.entries with _ | id
    · rw [openRepo_vacant hl hf]
      exact List.mem_append_left _ he
    · rw [openRepo_occupied hl hf]
      exact he

theorem openRepo_inv {cd : List (List Nat)} {s : IndexState} {u : Upstream}
    (hInv : IndexInv s) : IndexInv (Index.openRepo cd s u).1 := by
  rcases hl : localPathOf cd u with _ | loc
  · rw [openRepo_reject hl]
    exact hInv
  · rcases hf : findEntry loc s.entries with _ | id
    · rw [openRepo_vacant hl hf]
      obtain ⟨hb, hkey, hid⟩ := hInv
      refine ⟨?_, ?_, ?_⟩
      · intro p hp
        rcases List.mem_append.mp hp with hp' | hp'
        · exact Nat.lt_succ_of_lt (hb p hp')
        · simp at hp'
          subst hp'
          exact Nat.lt_succ_self _
      · rw [List.map_append]
        refine List.Nodup.append hkey (List.nodup_singleton _) ?_
        intro a ha ha2
        simp at ha2
        subst ha2
        obtain ⟨⟨l1, id1⟩, hmem, hfst⟩ := List.mem_map.mp ha
        simp at hfst
        subst hfst
        exact findEntry_none hf id1 hmem
      · rw [List.map_append]
        refine List.Nodup.append hid (List.nodup_singleton _) ?_
        intro a ha ha2
        simp at ha2
        subst ha2
        obtain ⟨⟨l1, id1⟩, hmem, hsnd⟩ := List.mem_map.mp ha
        simp at hsnd
        subst hsnd
        exact absurd (hb _ hmem) (by simp)
    · rw [openRepo_occupied hl hf]
      exact hInv

theorem runOpens_mem_mono {cd : List (List Nat)} {e : List (List Nat) × Nat} :
    ∀ (us : List Upstream) (s : IndexState), e ∈ s.entries →
      e ∈ (runOpens cd s us).entries := by
  intro us
  induction us with
  | nil => intro s he; exact he
  | cons u us ih =>
    intro s he
    exact ih _ (openRepo_mem_mono e he)

theorem runOpens_inv {cd : List (List Nat)} :
    ∀ (us : List Upstream) (s : IndexState), IndexInv s → IndexInv (runOpens cd s us) := by
  intro us
  induction us with
  | nil => intro s h; exact h
  | cons u us ih =>
    intro s h
    exact ih _ (openRepo_inv h)

/-- C2: interning in `Index::open`. From any well-formed index state, if
an open of `u1` returns handle `r1`, any number of other opens run, and
an open of `u2` returns handle `r2`, then `r1` and `r2` are the same
handle — hence the same `Arc<Mutex<Repo>>`, hence one per-repo lock —
if and only if `u1` and `u2` normalize to the same `LocalPath`.  In
particular an entry, once created, is returned by every later open of
the same `LocalPath`, and opens of different `LocalPath`s never share a
lock. -/
theorem open_interning (cd : List (List Nat)) (s0 s1 s2 s3 : IndexState)
    (u1 u2 : Upstream) (us : List Upstream) (r1 r2 : Nat)
    (hInv : IndexInv s0)
    (h1 : Index.openRepo cd s0 u1 = (s1, .ok r1))
    (hrun : runOpens cd s1 us = s2)
    (h2 : Index.openRepo cd s2 u2 = (s3, .ok r2)) :
    localPathOf cd u1 = localPathOf cd u2 ↔ r1 = r2 := by
  obtain ⟨l1, hl1, hm1⟩ := openRepo_ok h1
  have hs1 : (Index.openRepo cd s0 u1).1 = s1 := by rw [h1]
  have hInv1 : IndexInv s1 := hs1 ▸ openRepo_inv hInv
  have hInv2 : IndexInv s2 := hrun ▸ runOpens_inv us s1 hInv1
  have hm1' : (l1, r1) ∈ s2.entries := hrun ▸ runOpens_mem_mono us s1 hm1
  obtain ⟨hb2, hkey2, hid2⟩ := hInv2
  constructor
  · intro hlp
    have hl2 : localPathOf cd u2 = some l1 := hlp ▸ hl1
    have hf : findEntry l1 s2.entries = some r1 := findEntry_of_mem hkey2 hm1'
    rw [openRepo_occupied hl2 hf] at h2
    exact Except.ok.inj (congrArg Prod.snd h2)
  · intro hr
    obtain ⟨l2, hl2, hm2⟩ := openRepo_ok h2
    rcases hf : findEntry l2 s2.entries with _ | id
    · rw [openRepo_vacant hl2 hf] at h2
      have hc2 : s2.nextId = r2 := Except.ok.inj (congrArg Prod.snd h2)
      have hlt : r1 < s2.nextId := hb2 _ hm1'
      omega
    · rw [openRepo_occupied hl2 hf] at h2
      have hc2 : id = r2 := Except.ok.inj (congrArg Prod.snd h2)
      have hm2' : (l2, r1) ∈ s2.entries := by
        have hx := findEntry_mem hf
        rw [hc2, ← hr] at hx
        exact hx
      have hll : l1 = l2 := snd_injective hid2 hm1' hm2'
      rw [hl1, hl2, hll]

def upABC : Upstream := ⟨some (bytes "example.com"), bytes "/a/b/c"⟩

def upABCgit : Upstream := ⟨some (bytes "example.com"), bytes "/a/b/c.git"⟩

def localABC : List (List Nat) :=
  [bytes "example.com", bytes "a", bytes "b", bytes "c.git"]

def stABC : IndexState := ⟨[(localABC, 0)], 1, [localABC], [localABC]⟩

/-- Witness for `open_interning`: `https://example.com/a/b/c` and
`https://example.com/a/b/c.git` normalize to the same `LocalPath` (the
repository's own `mutual_exclusion` test pair), so both opens return
handle 0. -/
theorem open_interning_witness :
    localPathOf [] upABC = localPathOf [] upABCgit ↔ 0 = 0 :=
  open_interning [] emptyIndex stABC stABC stABC upABC upABCgit [] 0 0
    (by decide) (by rfl) rfl (by rfl)
